import Mathlib

/-!
Verification development for the CardWise/CardVault manager core.

The data model is embedded from `src/index.ts` (the `Customer`,
`Transaction`, `ProductItem`, `Payment` interfaces), the persistent-store
operations from `src/types.ts` (the `storage` object), the analytics
functions from `src/analytics.ts`, and the report totals from
`src/export.ts`.

Modelling conventions:
* JS numbers holding money amounts are modelled as `Int`.
* ISO date strings are modelled by their parsed calendar value `Date`
  (`year`/`month` as JS `getFullYear`/`getMonth`, month being 0–11, plus
  the day); JS `Date` comparison is timestamp order, modelled here as
  lexicographic order at day granularity.
* `new Date()` (the current instant) is passed explicitly as a `now`
  parameter.
* `generateId()` (wall clock + randomness) is modelled by letting the
  caller supply the freshly built record.
* Store collections live in a `Store` structure; `AsyncStorage`
  read-modify-write cycles become pure functions `Store → Store`.
* JS `Array.prototype.findIndex` followed by an in-place replacement is
  modelled by `updateFirst`, which rewrites the first matching element.
* JS `Map` iteration follows insertion order, with `set` on an existing
  key keeping its position; association lists built by `bump`/`bumpStats`
  reproduce exactly that order.
-/

/-- Calendar value of a parsed date string: `year`/`month`/`day` as read
off by `getFullYear`/`getMonth`/`getDate` (month is 0-based). -/
structure Date where
  year : Int
  month : Nat
  day : Nat
deriving DecidableEq

/-- `a < b` as JS timestamp comparison of dates, at day granularity. -/
def dateLt (a b : Date) : Bool :=
  decide (a.year < b.year ∨ (a.year = b.year ∧
    (a.month < b.month ∨ (a.month = b.month ∧ a.day < b.day))))

/-- `a ≤ b` on dates (used for `txDate >= startDate && txDate <= endDate`). -/
def dateLe (a b : Date) : Bool :=
  dateLt a b || decide (a = b)

/-- The `status` union type of a `Transaction`; `partiallyPaid` models the
string literal `"partial"` (which is a Lean keyword). -/
inductive Status where
  | paid
  | partiallyPaid
  | pending
deriving DecidableEq

/-- `ProductItem` from `src/index.ts`. -/
structure ProductItem where
  name : String
  quantity : Int
  unitPrice : Int
  total : Int
deriving DecidableEq

/-- `Customer` from `src/index.ts`. -/
structure Customer where
  id : String
  name : String
  businessName : String
  mobile : String
  email : String
  address : String
  businessType : String
  cardImageUri : Option String
  createdAt : Date
  updatedAt : Date
deriving DecidableEq

/-- `Transaction` from `src/index.ts`. -/
structure Transaction where
  id : String
  customerId : String
  date : Date
  products : List ProductItem
  totalAmount : Int
  amountPaid : Int
  status : Status
  notes : Option String
  createdAt : Date
deriving DecidableEq

/-- `Payment` from `src/index.ts` (`method` kept as its literal string). -/
structure Payment where
  id : String
  transactionId : String
  customerId : String
  amount : Int
  date : Date
  method : String
  notes : Option String
deriving DecidableEq

/-- The three persisted collections of `storage` in `src/types.ts`. -/
structure Store where
  customers : List Customer
  transactions : List Transaction
  payments : List Payment
deriving DecidableEq

/-- Replace the first element satisfying `p` by its image under `f`;
models `findIndex` followed by `arr[index] = f(arr[index])`. -/
def updateFirst (p : α → Bool) (f : α → α) : List α → List α
  | [] => []
  | x :: xs => if p x then f x :: xs else x :: updateFirst p f xs

/-- The transaction update performed inside `storage.addPayment`
(src/types.ts lines 188–199): add the payment amount to `amountPaid`
and recompute `status` (`paid` if `newAmountPaid >= totalAmount`, else
`partial` if `newAmountPaid > 0`, else `pending`). -/
def applyPaymentTx (t : Transaction) (amount : Int) : Transaction :=
  let newAmountPaid := t.amountPaid + amount
  { t with
    amountPaid := newAmountPaid
    status :=
      if t.totalAmount ≤ newAmountPaid then Status.paid
      else if 0 < newAmountPaid then Status.partiallyPaid
      else Status.pending }

/-- `storage.addPayment` (src/types.ts lines 176–204): unshift the new
payment onto the payments collection, then update the first transaction
whose `id` equals the payment's `transactionId` (no change when none
matches, matching the `txIndex !== -1` guard). -/
def addPayment (s : Store) (newPayment : Payment) : Store :=
  { s with
    payments := newPayment :: s.payments
    transactions :=
      updateFirst (fun t => t.id == newPayment.transactionId)
        (fun t => applyPaymentTx t newPayment.amount) s.transactions }

/-- `storage.deleteCustomer` (src/types.ts lines 109–121): filter the
customer out of `customers` and cascade by filtering `transactions` and
`payments` on `customerId`. -/
def deleteCustomer (s : Store) (id : String) : Store :=
  { customers := s.customers.filter (fun c => !(c.id == id))
    transactions := s.transactions.filter (fun t => !(t.customerId == id))
    payments := s.payments.filter (fun p => !(p.customerId == id)) }

/-- `storage.getCustomerTransactions` (src/types.ts lines 219–222). -/
def getCustomerTransactions (s : Store) (customerId : String) : List Transaction :=
  s.transactions.filter (fun t => t.customerId == customerId)

/-- `storage.getCustomerPayments` (src/types.ts lines 224–227). -/
def getCustomerPayments (s : Store) (customerId : String) : List Payment :=
  s.payments.filter (fun p => p.customerId == customerId)

/-- A `Partial<Customer>` argument to `storage.updateCustomer`: every
field optional, `none` meaning "absent from the update object". -/
structure CustomerUpdates where
  id : Option String := none
  name : Option String := none
  businessName : Option String := none
  mobile : Option String := none
  email : Option String := none
  address : Option String := none
  businessType : Option String := none
  cardImageUri : Option (Option String) := none
  createdAt : Option Date := none
  updatedAt : Option Date := none
deriving DecidableEq

/-- The spread `{ ...customers[index], ...updates, updatedAt: now }` of
`storage.updateCustomer` (src/types.ts lines 100–104): every field present
in `updates` wins over the stored one, and `updatedAt` is then forced to
`now` regardless of `updates`. -/
def mergeCustomer (c : Customer) (u : CustomerUpdates) (now : Date) : Customer :=
  { id := u.id.getD c.id
    name := u.name.getD c.name
    businessName := u.businessName.getD c.businessName
    mobile := u.mobile.getD c.mobile
    email := u.email.getD c.email
    address := u.address.getD c.address
    businessType := u.businessType.getD c.businessType
    cardImageUri := u.cardImageUri.getD c.cardImageUri
    createdAt := u.createdAt.getD c.createdAt
    updatedAt := now }

/-- `storage.updateCustomer` (src/types.ts lines 95–107): `findIndex` on
`id`; on `-1` return `null` leaving the collection untouched, otherwise
replace that element by the merge and return it. -/
def updateCustomer (now : Date) (customers : List Customer) (id : String)
    (u : CustomerUpdates) : Option Customer × List Customer :=
  match customers.find? (fun c => c.id == id) with
  | none => (none, customers)
  | some c =>
      (some (mergeCustomer c u now),
       updateFirst (fun c => c.id == id) (fun c => mergeCustomer c u now) customers)

/-- The three-way status rule stated by the spec (§3): `paid` iff
`amountPaid ≥ totalAmount`, `pending` iff `amountPaid ≤ 0`, `partial`
otherwise. -/
def statusRule (t : Transaction) : Prop :=
  (t.status = Status.paid ↔ t.totalAmount ≤ t.amountPaid) ∧
  (t.status = Status.pending ↔ t.amountPaid ≤ 0) ∧
  (t.status = Status.partiallyPaid ↔ (0 < t.amountPaid ∧ t.amountPaid < t.totalAmount))

instance (t : Transaction) : Decidable (statusRule t) := by
  unfold statusRule; infer_instance

/-- `getMonth`/`getFullYear` equality test used by all per-month filters:
`txDate.getMonth() === m && txDate.getFullYear() === y`. -/
def sameMonth (m : Nat) (y : Int) (d : Date) : Bool :=
  d.month == m && d.year == y

/-- One `customerTotals.get(cid) || 0` + `set(cid, current + amt)` step on
a JS `Map` rendered as an insertion-ordered association list: an existing
key keeps its position, a new key goes to the end. -/
def bump (acc : List (String × Int)) (cid : String) (amt : Int) :
    List (String × Int) :=
  match acc with
  | [] => [(cid, amt)]
  | (c, v) :: rest =>
      if c = cid then (c, v + amt) :: rest else (c, v) :: bump rest cid amt

/-- The `customerTotals` map of `getDashboardStats` (src/analytics.ts
lines 26–30): per-customer summed `totalAmount`, in first-encountered
order. -/
def accumTotals (txs : List Transaction) : List (String × Int) :=
  txs.foldl (fun acc t => bump acc t.customerId t.totalAmount) []

/-- One step of the top-customer scan of `getDashboardStats`
(src/analytics.ts lines 34–39): replace the running `(topCustomerId,
topAmount)` only on a strictly greater amount. -/
def pickTopStep (top e : String × Int) : String × Int :=
  if top.2 < e.2 then e else top

/-- The top-customer scan of `getDashboardStats` (src/analytics.ts lines
32–39): fold `pickTopStep` over the totals with start `("", 0)`. -/
def pickTop (l : List (String × Int)) : String × Int :=
  l.foldl pickTopStep ("", 0)

/-- Result record of `getDashboardStats`; `topCustomer` is the pair of the
(possibly absent) customer object and the top amount. -/
structure DashboardStats where
  totalCustomers : Nat
  thisMonthRevenue : Int
  pendingCollections : Int
  topCustomer : Option Customer × Int
deriving DecidableEq

/-- `getDashboardStats` (src/analytics.ts lines 3–52), with `new Date()`
passed in as `now`. -/
def getDashboardStats (now : Date) (customers : List Customer)
    (transactions : List Transaction) : DashboardStats :=
  let thisMonthTransactions :=
    transactions.filter (fun t => sameMonth now.month now.year t.date)
  let thisMonthRevenue :=
    thisMonthTransactions.foldl (fun sum t => sum + t.totalAmount) 0
  let pendingCollections :=
    transactions.foldl (fun sum t => sum + (t.totalAmount - t.amountPaid)) 0
  let top := pickTop (accumTotals thisMonthTransactions)
  { totalCustomers := customers.length
    thisMonthRevenue := thisMonthRevenue
    pendingCollections := pendingCollections
    topCustomer := (customers.find? (fun c => c.id == top.1), top.2) }

/-- `RankedCustomer` from `src/index.ts`. -/
structure RankedCustomer where
  customer : Customer
  rank : Nat
  totalAmount : Int
  transactionCount : Nat
deriving DecidableEq

/-- Order produced by the comparator `(a, b) => b.totalAmount -
a.totalAmount`: `a` may stay before `b` iff `b.totalAmount ≤
a.totalAmount`. -/
def rankedGe (a b : RankedCustomer) : Prop :=
  b.totalAmount ≤ a.totalAmount

instance : DecidableRel rankedGe := fun a b =>
  inferInstanceAs (Decidable (b.totalAmount ≤ a.totalAmount))

instance : IsTotal RankedCustomer rankedGe :=
  ⟨fun a b => (le_total b.totalAmount a.totalAmount).imp id id⟩

instance : IsTrans RankedCustomer rankedGe :=
  ⟨fun _ _ _ h h' => le_trans h' h⟩

/-- One `customerStats` map step of `getMonthlyRankings` (src/analytics.ts
lines 74–83): add `amt` to the running `totalAmount` and advance
`transactionCount`, insertion-ordered as a JS `Map`. -/
def bumpStats (acc : List (String × Int × Nat)) (cid : String) (amt : Int) :
    List (String × Int × Nat) :=
  match acc with
  | [] => [(cid, amt, 1)]
  | (c, v, n) :: rest =>
      if c = cid then (c, v + amt, n + 1) :: rest
      else (c, v, n) :: bumpStats rest cid amt

/-- The `customerStats` map of `getMonthlyRankings`, in first-encountered
order. -/
def accumStats (txs : List Transaction) : List (String × Int × Nat) :=
  txs.foldl (fun acc t => bumpStats acc t.customerId t.totalAmount) []

/-- The `rankings.forEach((r, index) => r.rank = index + 1)` pass of
`getMonthlyRankings` (src/analytics.ts lines 99–101), carrying the
running index. -/
def assignRanks (i : Nat) : List RankedCustomer → List RankedCustomer
  | [] => []
  | r :: rest => { r with rank := i + 1 } :: assignRanks (i + 1) rest

/-- `getMonthlyRankings` (src/analytics.ts lines 54–104): filter to the
target month, group per customer, drop ids with no matching customer,
sort by the stable comparator on `totalAmount` descending (JS
`Array.prototype.sort` is stable; the unique stable sort is rendered by
`List.insertionSort`), then assign `rank = index + 1`. -/
def getMonthlyRankings (now : Date) (customers : List Customer)
    (transactions : List Transaction) (month : Option Nat)
    (year : Option Int) : List RankedCustomer :=
  let targetMonth := month.getD now.month
  let targetYear := year.getD now.year
  let monthTransactions :=
    transactions.filter (fun t => sameMonth targetMonth targetYear t.date)
  let rankings :=
    (accumStats monthTransactions).filterMap (fun e =>
      (customers.find? (fun c => c.id == e.1)).map (fun c =>
        RankedCustomer.mk c 0 e.2.1 e.2.2))
  assignRanks 0 (List.insertionSort rankedGe rankings)

/-- Linear month index `year * 12 + month`, so that JS
`new Date(year, month - i, 1)` normalisation is subtraction on indices. -/
def monthIndex (d : Date) : Int :=
  d.year * 12 + d.month

/-- Back from a linear month index to `(fullYear, month)`, exactly the JS
`Date` normalisation of an out-of-range month argument. -/
def monthOfIndex (idx : Int) : Int × Nat :=
  (idx.fdiv 12, (idx.emod 12).toNat)

/-- `toLocaleDateString("en-US", { month: "short" })` for a 0-based
month. -/
def monthName (m : Nat) : String :=
  (["Jan", "Feb", "Mar", "Apr", "May", "Jun",
    "Jul", "Aug", "Sep", "Oct", "Nov", "Dec"].getD m "")

/-- The per-month bucket sum of `getRevenueChartData` (src/analytics.ts
lines 157–167): keep a transaction when the range test passes — which the
code short-circuits to `true` as soon as either bound is absent — and its
date lies in calendar month `(y, m)`; then sum `totalAmount`. -/
def monthRevenue (transactions : List Transaction)
    (startDate endDate : Option Date) (y : Int) (m : Nat) : Int :=
  (transactions.filter (fun t =>
      (match startDate, endDate with
       | some sd, some ed => dateLe sd t.date && dateLe t.date ed
       | _, _ => true) &&
      sameMonth m y t.date)).foldl (fun sum t => sum + t.totalAmount) 0

/-- The amended claim's month-bucket membership: the date lies in
calendar month `(y, m)` and, whenever both `startDate` and `endDate` are
supplied, also within `[startDate, endDate]`; with at most one bound
supplied no range condition applies. -/
def inClaimBucket (startDate endDate : Option Date) (y : Int) (m : Nat)
    (d : Date) : Bool :=
  sameMonth m y d &&
  (match startDate, endDate with
   | some sd, some ed => dateLe sd d && dateLe d ed
   | _, _ => true)

/-- `getRevenueChartData` (src/analytics.ts lines 142–173): one bucket per
trailing calendar month, oldest first; the loop index `i = months-1 .. 0`
appears here as `i = months - 1 - j` for `j = 0 .. months-1`. -/
def getRevenueChartData (now : Date) (transactions : List Transaction)
    (months : Nat) (startDate endDate : Option Date) :
    List String × List Int :=
  ((List.range months).map (fun j =>
      monthName (monthOfIndex (monthIndex now - (months - 1 - j : Nat))).2),
   (List.range months).map (fun j =>
      let ym := monthOfIndex (monthIndex now - (months - 1 - j : Nat))
      monthRevenue transactions startDate endDate ym.1 ym.2))

/-- `getPaymentStatusData` (src/analytics.ts lines 175–193): drop
transactions before `startDate` or after `endDate` (each bound only when
present), then sum `amountPaid` and `totalAmount - amountPaid`. -/
def getPaymentStatusData (transactions : List Transaction)
    (startDate endDate : Option Date) : Int × Int :=
  let filtered := transactions.filter (fun t =>
    (match startDate with
     | some sd => !dateLt t.date sd
     | none => true) &&
    (match endDate with
     | some ed => !dateLt ed t.date
     | none => true))
  (filtered.foldl (fun sum t => sum + t.amountPaid) 0,
   filtered.foldl (fun sum t => sum + (t.totalAmount - t.amountPaid)) 0)

/-- The numeric summary block of `generateReportSummary` (src/export.ts
lines 117–127): `(Total Customers, Total Revenue, Total Collected,
Pending Collection)`; the surrounding string interpolation and the
floating-point collection rate carry no further numeric content. -/
def generateReportSummaryTotals (customers : List Customer)
    (transactions : List Transaction) : Nat × Int × Int × Int :=
  let totalRevenue := transactions.foldl (fun sum t => sum + t.totalAmount) 0
  let totalCollected := transactions.foldl (fun sum t => sum + t.amountPaid) 0
  (customers.length, totalRevenue, totalCollected, totalRevenue - totalCollected)

/-- Sample date for instantiating theorems on concrete inputs. -/
def sampleDate : Date := ⟨2025, 8, 10⟩

/-- Sample customer record. -/
def sampleCustomer : Customer :=
  ⟨"c1", "Asha", "Asha Traders", "9900", "a@x.in", "Pune", "retail",
   none, sampleDate, sampleDate⟩

/-- Sample transaction of `sampleCustomer`, nothing paid yet. -/
def sampleTx : Transaction :=
  ⟨"t1", "c1", sampleDate, [], 100, 0, Status.pending, none, sampleDate⟩

/-- Sample payment towards `sampleTx`. -/
def samplePayment : Payment :=
  ⟨"p1", "t1", "c1", 40, sampleDate, "cash", none⟩

/-- Sample store holding the three sample records' collections. -/
def sampleStore : Store := ⟨[sampleCustomer], [sampleTx], []⟩

/-- A second sample customer, distinct id. -/
def sampleCustomer2 : Customer :=
  ⟨"c2", "Ravi", "Ravi Stores", "8800", "r@x.in", "Nashik", "retail",
   none, sampleDate, sampleDate⟩

/-- A second sample transaction, same month and the same `totalAmount` as
`sampleTx` but for `sampleCustomer2`. -/
def sampleTx2 : Transaction :=
  ⟨"t2", "c2", sampleDate, [], 100, 0, Status.pending, none, sampleDate⟩

/-! ### Generic lemmas -/

theorem foldl_add_eq_sum (f : α → Int) (l : List α) (init : Int) :
    l.foldl (fun s x => s + f x) init = init + (l.map f).sum := by
  induction l generalizing init with
  | nil => simp
  | cons x xs ih => simp [ih, add_assoc]

theorem sum_map_sub (f g : α → Int) (l : List α) :
    (l.map (fun x => f x - g x)).sum = (l.map f).sum - (l.map g).sum := by
  induction l with
  | nil => simp
  | cons x xs ih => simp only [List.map_cons, List.sum_cons, ih]; ring

theorem updateFirst_of_find?_eq_none (p : α → Bool) (f : α → α) (l : List α)
    (h : l.find? p = none) : updateFirst p f l = l := by
  induction l with
  | nil => rfl
  | cons x xs ih =>
      rw [List.find?_eq_none] at h
      have hx : p x = false := by
        have := h x (List.mem_cons_self x xs)
        simpa using this
      have hxs : xs.find? p = none := by
        rw [List.find?_eq_none]
        exact fun y hy => h y (List.mem_cons_of_mem x hy)
      simp [updateFirst, hx, ih hxs]

theorem find?_updateFirst (p : α → Bool) (f : α → α) (l : List α) (x : α)
    (h : l.find? p = some x) (hf : p (f x) = true) :
    (updateFirst p f l).find? p = some (f x) := by
  induction l with
  | nil => simp at h
  | cons y ys ih =>
      by_cases hy : p y = true
      · rw [List.find?_cons_of_pos _ hy] at h
        obtain rfl : y = x := by injection h
        simp [updateFirst, hy, List.find?_cons_of_pos _ hf]
      · have hy' : p y = false := by simpa using hy
        rw [List.find?_cons_of_neg _ hy] at h
        unfold updateFirst
        rw [if_neg (by simp [hy']), List.find?_cons_of_neg _ hy]
        exact ih h

/-! ### C1 / C10 machinery: payments folded over a store -/

theorem applyPaymentTx_id (t : Transaction) (a : Int) :
    (applyPaymentTx t a).id = t.id := rfl

theorem applyPaymentTx_totalAmount (t : Transaction) (a : Int) :
    (applyPaymentTx t a).totalAmount = t.totalAmount := rfl

theorem applyPaymentTx_amountPaid (t : Transaction) (a : Int) :
    (applyPaymentTx t a).amountPaid = t.amountPaid + a := rfl

/-- Folding payments over the store matches folding the amounts over the
one transaction the payments reference. -/
theorem find?_foldl_addPayment (ps : List Payment) (s : Store) (tid : String)
    (t : Transaction) (hall : ∀ p ∈ ps, p.transactionId = tid)
    (h : s.transactions.find? (fun t => t.id == tid) = some t) :
    (ps.foldl addPayment s).transactions.find? (fun t => t.id == tid) =
      some (ps.foldl (fun t p => applyPaymentTx t p.amount) t) := by
  induction ps generalizing s t with
  | nil => simpa using h
  | cons p ps ih =>
      have hp : p.transactionId = tid := hall p (List.mem_cons_self p ps)
      have ht : (t.id == tid) = true := by
        have := List.find?_some h; simpa using this
      have hstep : (addPayment s p).transactions.find? (fun t => t.id == tid) =
          some (applyPaymentTx t p.amount) := by
        unfold addPayment
        rw [hp]
        exact find?_updateFirst _ _ _ _ h (by rw [applyPaymentTx_id]; exact ht)
      exact List.foldl_cons _ _ ▸
        ih (addPayment s p) (applyPaymentTx t p.amount)
          (fun q hq => hall q (List.mem_cons_of_mem p hq)) hstep

theorem totalAmount_foldl_applyPaymentTx (ps : List Payment) (t : Transaction) :
    (ps.foldl (fun t p => applyPaymentTx t p.amount) t).totalAmount =
      t.totalAmount := by
  induction ps generalizing t with
  | nil => rfl
  | cons p ps ih => simpa [applyPaymentTx_totalAmount] using ih (applyPaymentTx t p.amount)

/-- After one recomputation the status satisfies the three-way rule as
long as the transaction's `totalAmount` is positive. -/
theorem statusRule_applyPaymentTx (t : Transaction) (a : Int)
    (h : 0 < t.totalAmount) : statusRule (applyPaymentTx t a) := by
  unfold statusRule applyPaymentTx
  by_cases h1 : t.totalAmount ≤ t.amountPaid + a <;>
    by_cases h2 : 0 < t.amountPaid + a <;>
      simp [h1, h2] <;> omega

theorem filter_not_filter (p : α → Bool) (l : List α) :
    (l.filter (fun a => !(p a))).filter p = [] := by
  induction l with
  | nil => rfl
  | cons x xs ih =>
      by_cases hx : p x = true
      · simp [List.filter_cons, hx, ih]
      · have hx' : p x = false := by simpa using hx
        simp [List.filter_cons, hx', ih]

/-! ### C1: status rule after a sequence of payments -/

/-- C1 (amended): for every transaction with positive `totalAmount` and
every non-empty sequence of `addPayment` calls referencing it, the status
after the updates is `paid` iff `amountPaid ≥ totalAmount`, `pending` iff
`amountPaid ≤ 0`, and `partial` otherwise. (Positivity is needed: with
`totalAmount ≤ 0` the `paid` branch wins over `pending`.) -/
theorem addPayment_sequence_statusRule (s : Store) (tid : String)
    (t : Transaction) (ps : List Payment)
    (hne : ps ≠ [])
    (hall : ∀ p ∈ ps, p.transactionId = tid)
    (hfind : s.transactions.find? (fun t => t.id == tid) = some t)
    (hpos : 0 < t.totalAmount) :
    ∃ t', (ps.foldl addPayment s).transactions.find? (fun t => t.id == tid) =
        some t' ∧ statusRule t' := by
  rcases List.eq_nil_or_concat ps with rfl | ⟨qs, q, rfl⟩
  · exact absurd rfl hne
  · refine ⟨_, find?_foldl_addPayment _ s tid t hall hfind, ?_⟩
    rw [List.concat_eq_append, List.foldl_append, List.foldl_cons, List.foldl_nil]
    exact statusRule_applyPaymentTx _ _
      (by rw [totalAmount_foldl_applyPaymentTx]; exact hpos)

theorem addPayment_sequence_statusRule_witness :
    ∃ t', (([samplePayment].foldl addPayment sampleStore).transactions.find?
        (fun t => t.id == "t1") = some t') ∧ statusRule t' :=
  addPayment_sequence_statusRule sampleStore "t1" sampleTx [samplePayment]
    (by decide) (by decide) (by decide) (by decide)

/-- C1 counterexample: a transaction with `totalAmount = 0` and a payment
of `0` referencing it. After the call the code sets `status = "paid"`
(`0 ≥ 0`), while the claimed rule demands `"pending"` (`amountPaid ≤ 0`),
so the three-way rule fails. -/
theorem addPayment_sequence_statusRule_cex :
    ([(⟨"p1", "t1", "cx", 0, ⟨2025, 8, 10⟩, "cash", none⟩ : Payment)].foldl
        addPayment
        (Store.mk []
          [⟨"t1", "cx", ⟨2025, 8, 10⟩, [], 0, 0, Status.pending, none,
            ⟨2025, 8, 10⟩⟩] [])).transactions =
      [⟨"t1", "cx", ⟨2025, 8, 10⟩, [], 0, 0, Status.paid, none,
        ⟨2025, 8, 10⟩⟩] ∧
    ¬ statusRule
        ⟨"t1", "cx", ⟨2025, 8, 10⟩, [], 0, 0, Status.paid, none,
          ⟨2025, 8, 10⟩⟩ := by
  exact ⟨by decide, by decide⟩

/-! ### C7: payment against a missing transaction -/

/-- C7: `addPayment` always records the new payment at the head of the
payments collection; when no transaction matches `transactionId` the
transactions collection is left entirely unchanged; when one exists, the
first match gets `amountPaid = prior amountPaid + payment.amount`, with
no cap at `totalAmount`. -/
theorem addPayment_orphan_and_update (s : Store) (p : Payment) :
    (addPayment s p).payments = p :: s.payments ∧
    (s.transactions.find? (fun t => t.id == p.transactionId) = none →
      (addPayment s p).transactions = s.transactions) ∧
    (∀ t, s.transactions.find? (fun t => t.id == p.transactionId) = some t →
      (addPayment s p).transactions.find? (fun t => t.id == p.transactionId) =
          some (applyPaymentTx t p.amount) ∧
      (applyPaymentTx t p.amount).amountPaid = t.amountPaid + p.amount) := by
  refine ⟨rfl, fun hnone => ?_, fun t hsome => ?_⟩
  · exact updateFirst_of_find?_eq_none _ _ _ hnone
  · have ht : (t.id == p.transactionId) = true := by
      have := List.find?_some hsome; simpa using this
    exact ⟨find?_updateFirst _ _ _ _ hsome
      (by rw [applyPaymentTx_id]; exact ht), rfl⟩

theorem addPayment_orphan_and_update_witness :
    (addPayment ⟨[], [], []⟩ samplePayment).payments = [samplePayment] ∧
    (addPayment ⟨[], [], []⟩ samplePayment).transactions = [] ∧
    (addPayment sampleStore samplePayment).transactions.find?
        (fun t => t.id == samplePayment.transactionId) =
      some (applyPaymentTx sampleTx samplePayment.amount) ∧
    (applyPaymentTx sampleTx samplePayment.amount).amountPaid =
      sampleTx.amountPaid + samplePayment.amount := by
  obtain ⟨h1, h2, -⟩ := addPayment_orphan_and_update ⟨[], [], []⟩ samplePayment
  obtain ⟨-, -, h3⟩ := addPayment_orphan_and_update sampleStore samplePayment
  obtain ⟨h4, h5⟩ := h3 sampleTx (by decide)
  exact ⟨h1, h2 (by decide), h4, h5⟩

/-! ### C10: a positive payment never yields status "pending" -/

/-- C10: a payment with `amount > 0` applied to an existing transaction
whose prior `amountPaid` is `≥ 0` never produces status `"pending"`: the
new `amountPaid` is strictly positive, so the recomputation takes the
`paid` or `partial` branch. -/
theorem addPayment_positive_not_pending (s : Store) (p : Payment)
    (t : Transaction)
    (hfind : s.transactions.find? (fun t => t.id == p.transactionId) = some t)
    (hprior : 0 ≤ t.amountPaid) (hamt : 0 < p.amount) :
    ∃ t', (addPayment s p).transactions.find?
        (fun t => t.id == p.transactionId) = some t' ∧
      t'.status ≠ Status.pending := by
  have ht : (t.id == p.transactionId) = true := by
    have := List.find?_some hfind; simpa using this
  refine ⟨_, find?_updateFirst _ _ _ _ hfind
    (by rw [applyPaymentTx_id]; exact ht), ?_⟩
  unfold applyPaymentTx
  by_cases h1 : t.totalAmount ≤ t.amountPaid + p.amount <;>
    by_cases h2 : 0 < t.amountPaid + p.amount <;>
      simp [h1, h2] <;> omega

theorem addPayment_positive_not_pending_witness :
    ∃ t', (addPayment sampleStore samplePayment).transactions.find?
        (fun t => t.id == samplePayment.transactionId) = some t' ∧
      t'.status ≠ Status.pending :=
  addPayment_positive_not_pending sampleStore samplePayment sampleTx
    (by decide) (by decide) (by decide)

/-! ### C6: deleteCustomer cascade -/

/-- C6 (amended): `deleteCustomer` removes the customer and every
transaction and payment with matching `customerId`, after which
`getCustomerTransactions`/`getCustomerPayments` for that id are empty;
and it is a no-op exactly on stores where the id matches no customer, no
transaction and no payment. (Matching no customer alone is not enough:
orphaned transactions or payments carrying that `customerId` are still
removed.) -/
theorem deleteCustomer_cascade (s : Store) (id : String) :
    (∀ c ∈ (deleteCustomer s id).customers, c.id ≠ id) ∧
    getCustomerTransactions (deleteCustomer s id) id = [] ∧
    getCustomerPayments (deleteCustomer s id) id = [] ∧
    ((∀ c ∈ s.customers, c.id ≠ id) →
     (∀ t ∈ s.transactions, t.customerId ≠ id) →
     (∀ q ∈ s.payments, q.customerId ≠ id) →
      deleteCustomer s id = s) := by
  obtain ⟨cs, ts, qs⟩ := s
  refine ⟨?_, ?_, ?_, ?_⟩
  · intro c hc
    have := (List.mem_filter.mp hc).2
    simpa using this
  · exact filter_not_filter (fun t => t.customerId == id) ts
  · exact filter_not_filter (fun q => q.customerId == id) qs
  · intro h1 h2 h3
    simp only [deleteCustomer, Store.mk.injEq]
    refine ⟨List.filter_eq_self.mpr fun a ha => ?_,
            List.filter_eq_self.mpr fun a ha => ?_,
            List.filter_eq_self.mpr fun a ha => ?_⟩
    · simpa using h1 a ha
    · simpa using h2 a ha
    · simpa using h3 a ha

theorem deleteCustomer_cascade_witness :
    (∀ c ∈ (deleteCustomer sampleStore "zz").customers, c.id ≠ "zz") ∧
    getCustomerTransactions (deleteCustomer sampleStore "zz") "zz" = [] ∧
    getCustomerPayments (deleteCustomer sampleStore "zz") "zz" = [] ∧
    deleteCustomer sampleStore "zz" = sampleStore := by
  obtain ⟨h1, h2, h3, h4⟩ := deleteCustomer_cascade sampleStore "zz"
  exact ⟨h1, h2, h3, h4 (by decide) (by decide) (by decide)⟩

/-- C6 counterexample: the id `"c1"` matches no customer of the store
(`customers` is empty), yet `deleteCustomer` changes the transactions
collection by removing the orphaned transaction carrying
`customerId = "c1"` — not a no-op. -/
theorem deleteCustomer_cascade_cex :
    deleteCustomer (Store.mk [] [sampleTx] []) "c1" ≠
      Store.mk [] [sampleTx] [] := by decide

/-! ### C8: updateCustomer -/

/-- C8 (amended): for an update object that does not itself carry an `id`
field, `updateCustomer` keeps the customer's `id` unchanged and forces
`updatedAt` to the current time; for an id matching no customer it
returns `null` and leaves the collection unmodified. (An update object
carrying `id` does overwrite the stored id, since the spread
`{...customer, ...updates}` lets every supplied field win.) -/
theorem updateCustomer_merge_spec (now : Date) (customers : List Customer)
    (id : String) (u : CustomerUpdates) (hid : u.id = none) :
    (customers.find? (fun c => c.id == id) = none →
      updateCustomer now customers id u = (none, customers)) ∧
    (∀ c, customers.find? (fun c => c.id == id) = some c →
      (updateCustomer now customers id u).1 = some (mergeCustomer c u now) ∧
      (mergeCustomer c u now).id = c.id ∧
      (mergeCustomer c u now).updatedAt = now) := by
  constructor
  · intro hnone
    unfold updateCustomer
    rw [hnone]
  · intro c hsome
    unfold updateCustomer
    rw [hsome]
    exact ⟨rfl, by simp [mergeCustomer, hid], rfl⟩

theorem updateCustomer_merge_spec_witness :
    (updateCustomer sampleDate [sampleCustomer] "c9" {} =
      (none, [sampleCustomer])) ∧
    (updateCustomer sampleDate [sampleCustomer] "c1"
        { name := some "Usha" }).1 =
      some (mergeCustomer sampleCustomer { name := some "Usha" } sampleDate) ∧
    (mergeCustomer sampleCustomer { name := some "Usha" } sampleDate).id =
      sampleCustomer.id ∧
    (mergeCustomer sampleCustomer { name := some "Usha" } sampleDate).updatedAt =
      sampleDate := by
  obtain ⟨h1, -⟩ :=
    updateCustomer_merge_spec sampleDate [sampleCustomer] "c9" {} rfl
  obtain ⟨-, h2⟩ :=
    updateCustomer_merge_spec sampleDate [sampleCustomer] "c1"
      { name := some "Usha" } rfl
  obtain ⟨h3, h4, h5⟩ := h2 sampleCustomer (by decide)
  exact ⟨h1 (by decide), h3, h4, h5⟩

/-- C8 counterexample: an update object that carries `id: "c2"` changes
the stored customer's id from `"c1"` to `"c2"` — the id is not immutable
against the update payload. -/
theorem updateCustomer_merge_spec_cex :
    ((updateCustomer sampleDate [sampleCustomer] "c1"
        { id := some "c2" }).1.map (fun c => c.id)) = some "c2" ∧
    "c2" ≠ "c1" := by
  exact ⟨by decide, by decide⟩

/-! ### C2: dashboard totals -/

/-- C2: `getDashboardStats` returns `totalCustomers` equal to the number
of customers, `thisMonthRevenue` equal to the sum of `totalAmount` over
exactly the transactions dated in the current calendar month and year,
and `pendingCollections` equal to the sum of
`totalAmount - amountPaid` over all transactions regardless of date. -/
theorem getDashboardStats_totals (now : Date) (customers : List Customer)
    (transactions : List Transaction) :
    (getDashboardStats now customers transactions).totalCustomers =
      customers.length ∧
    (getDashboardStats now customers transactions).thisMonthRevenue =
      ((transactions.filter (fun t => sameMonth now.month now.year t.date)).map
        (fun t => t.totalAmount)).sum ∧
    (getDashboardStats now customers transactions).pendingCollections =
      (transactions.map (fun t => t.totalAmount - t.amountPaid)).sum := by
  refine ⟨rfl, ?_, ?_⟩
  · have := foldl_add_eq_sum (fun t => t.totalAmount)
      (transactions.filter (fun t => sameMonth now.month now.year t.date)) 0
    simpa using this
  · have := foldl_add_eq_sum (fun t => t.totalAmount - t.amountPaid)
      transactions 0
    simpa using this

/-! ### C9: report totals agree with the aggregation engine -/

/-- C9: the report summary's Total Collected equals
`getPaymentStatusData(transactions).collected`, and its Pending
Collection equals both `getPaymentStatusData(transactions).pending` and
`getDashboardStats(customers, transactions).pendingCollections`. -/
theorem generateReportSummary_agrees (now : Date) (customers : List Customer)
    (transactions : List Transaction) :
    (generateReportSummaryTotals customers transactions).2.2.1 =
      (getPaymentStatusData transactions none none).1 ∧
    (generateReportSummaryTotals customers transactions).2.2.2 =
      (getPaymentStatusData transactions none none).2 ∧
    (generateReportSummaryTotals customers transactions).2.2.2 =
      (getDashboardStats now customers transactions).pendingCollections := by
  have h1 : (getPaymentStatusData transactions none none).1 =
      transactions.foldl (fun sum t => sum + t.amountPaid) 0 := by
    unfold getPaymentStatusData
    simp
  have h2 : (getPaymentStatusData transactions none none).2 =
      transactions.foldl (fun sum t => sum + (t.totalAmount - t.amountPaid)) 0 := by
    unfold getPaymentStatusData
    simp
  have h3 : (getDashboardStats now customers transactions).pendingCollections =
      transactions.foldl (fun sum t => sum + (t.totalAmount - t.amountPaid)) 0 :=
    rfl
  have h4 : (generateReportSummaryTotals customers transactions).2.2.1 =
      transactions.foldl (fun sum t => sum + t.amountPaid) 0 := rfl
  have h5 : (generateReportSummaryTotals customers transactions).2.2.2 =
      transactions.foldl (fun sum t => sum + t.totalAmount) 0 -
      transactions.foldl (fun sum t => sum + t.amountPaid) 0 := rfl
  refine ⟨by rw [h4, h1], ?_, ?_⟩
  · rw [h5, h2, foldl_add_eq_sum, foldl_add_eq_sum, foldl_add_eq_sum,
      sum_map_sub]
    ring
  · rw [h5, h3, foldl_add_eq_sum, foldl_add_eq_sum, foldl_add_eq_sum,
      sum_map_sub]
    ring

/-! ### C3: monthly rankings -/

theorem length_assignRanks (i : Nat) (l : List RankedCustomer) :
    (assignRanks i l).length = l.length := by
  induction l generalizing i with
  | nil => rfl
  | cons r rest ih => simp [assignRanks, ih]

theorem map_rank_assignRanks (i : Nat) (l : List RankedCustomer) :
    (assignRanks i l).map (fun r => r.rank) = List.range' (i + 1) l.length := by
  induction l generalizing i with
  | nil => rfl
  | cons r rest ih =>
      simp [assignRanks, List.range', ih]

theorem map_rank_assignRanks_self (l : List RankedCustomer) :
    (assignRanks 0 l).map (fun r => r.rank) =
      List.range' 1 (assignRanks 0 l).length := by
  rw [length_assignRanks, map_rank_assignRanks]

theorem mem_assignRanks (i : Nat) (l : List RankedCustomer) (x : RankedCustomer)
    (h : x ∈ assignRanks i l) : ∃ r ∈ l, x.totalAmount = r.totalAmount := by
  induction l generalizing i with
  | nil => simp [assignRanks] at h
  | cons r rest ih =>
      rcases List.mem_cons.mp h with rfl | h'
      · exact ⟨r, List.mem_cons_self r rest, rfl⟩
      · obtain ⟨r', hr', he⟩ := ih (i + 1) h'
        exact ⟨r', List.mem_cons_of_mem r hr', he⟩

theorem pairwise_assignRanks (i : Nat) (l : List RankedCustomer)
    (h : List.Pairwise rankedGe l) :
    List.Pairwise rankedGe (assignRanks i l) := by
  induction l generalizing i with
  | nil => exact List.Pairwise.nil
  | cons r rest ih =>
      obtain ⟨hr, hrest⟩ := List.pairwise_cons.mp h
      refine List.pairwise_cons.mpr ⟨?_, ih (i + 1) hrest⟩
      intro x hx
      obtain ⟨r', hr', he⟩ := mem_assignRanks (i + 1) rest x hx
      show x.totalAmount ≤ r.totalAmount
      rw [he]
      exact hr r' hr'

/-- C3 (amended): whenever `getMonthlyRankings` returns a non-empty
result, the sequence is sorted in weakly descending order by
`totalAmount` — descent is strict only between distinct totals, tied
totals stay adjacent in stable order — and the `rank` fields read in
order are exactly `1, 2, ..., n`. -/
theorem getMonthlyRankings_sorted_ranks (now : Date) (customers : List Customer)
    (transactions : List Transaction) (month : Option Nat) (year : Option Int)
    (hne : getMonthlyRankings now customers transactions month year ≠ []) :
    List.Pairwise rankedGe
      (getMonthlyRankings now customers transactions month year) ∧
    (getMonthlyRankings now customers transactions month year).map
        (fun r => r.rank) =
      List.range' 1
        (getMonthlyRankings now customers transactions month year).length := by
  constructor
  · exact pairwise_assignRanks 0 _ (List.sorted_insertionSort rankedGe _)
  · exact map_rank_assignRanks_self _

theorem getMonthlyRankings_sorted_ranks_witness :
    List.Pairwise rankedGe
      (getMonthlyRankings sampleDate [sampleCustomer] [sampleTx]
        (some 8) (some 2025)) ∧
    (getMonthlyRankings sampleDate [sampleCustomer] [sampleTx]
        (some 8) (some 2025)).map (fun r => r.rank) =
      List.range' 1
        (getMonthlyRankings sampleDate [sampleCustomer] [sampleTx]
          (some 8) (some 2025)).length :=
  getMonthlyRankings_sorted_ranks sampleDate [sampleCustomer] [sampleTx]
    (some 8) (some 2025) (by decide)

/-- C3 counterexample: two customers with equal monthly totals. The
result keeps both entries at `totalAmount = 100`, so it is not sorted
*strictly* descending as the claim states (ties are legal output). -/
theorem getMonthlyRankings_sorted_ranks_cex :
    ¬ List.Pairwise (fun a b => b.totalAmount < a.totalAmount)
        (getMonthlyRankings sampleDate [sampleCustomer, sampleCustomer2]
          [sampleTx, sampleTx2] (some 8) (some 2025)) := by decide

/-! ### C4: revenue chart -/

theorem monthRevenue_eq_claim (transactions : List Transaction)
    (startDate endDate : Option Date) (y : Int) (m : Nat) :
    monthRevenue transactions startDate endDate y m =
      ((transactions.filter (fun t =>
          inClaimBucket startDate endDate y m t.date)).map
        (fun t => t.totalAmount)).sum := by
  have hpq : (fun (t : Transaction) =>
      (match startDate, endDate with
       | some sd, some ed => dateLe sd t.date && dateLe t.date ed
       | _, _ => true) && sameMonth m y t.date) = (fun (t : Transaction) =>
      inClaimBucket startDate endDate y m t.date) := by
    funext t
    unfold inClaimBucket
    exact Bool.and_comm _ _
  unfold monthRevenue
  rw [hpq, foldl_add_eq_sum, zero_add]

/-- C4 (amended): `labels` and `data` always have exactly `months`
entries, and each `data[j]` is the sum of `totalAmount` over transactions
dated in that trailing calendar month and — whenever BOTH `startDate`
and `endDate` are supplied — also within `[startDate, endDate]`; when at
most one bound is supplied the range filter is skipped entirely (the
code's `!startDate || !endDate ||` short-circuit). Months with no
matching transactions contribute `0`. -/
theorem getRevenueChartData_spec (now : Date) (transactions : List Transaction)
    (months : Nat) (startDate endDate : Option Date) (j : Nat)
    (hj : j < months) :
    (getRevenueChartData now transactions months startDate endDate).1.length =
      months ∧
    (getRevenueChartData now transactions months startDate endDate).2.length =
      months ∧
    (getRevenueChartData now transactions months startDate endDate).2.getD j 0 =
      ((transactions.filter (fun t =>
          inClaimBucket startDate endDate
            (monthOfIndex (monthIndex now - (months - 1 - j : Nat))).1
            (monthOfIndex (monthIndex now - (months - 1 - j : Nat))).2
            t.date)).map (fun t => t.totalAmount)).sum := by
  refine ⟨by simp [getRevenueChartData], by simp [getRevenueChartData], ?_⟩
  have hdata :
      (getRevenueChartData now transactions months startDate endDate).2.getD j 0 =
      monthRevenue transactions startDate endDate
        (monthOfIndex (monthIndex now - (months - 1 - j : Nat))).1
        (monthOfIndex (monthIndex now - (months - 1 - j : Nat))).2 := by
    show (((List.range months).map _).getD j 0 : Int) = _
    rw [List.getD_eq_getElem?_getD, List.getElem?_map, List.getElem?_range hj]
    rfl
  rw [hdata, monthRevenue_eq_claim]

theorem getRevenueChartData_spec_witness :
    (getRevenueChartData sampleDate [sampleTx] 1 (some ⟨2025, 8, 1⟩)
        (some ⟨2025, 8, 31⟩)).1.length = 1 ∧
    (getRevenueChartData sampleDate [sampleTx] 1 (some ⟨2025, 8, 1⟩)
        (some ⟨2025, 8, 31⟩)).2.length = 1 ∧
    (getRevenueChartData sampleDate [sampleTx] 1 (some ⟨2025, 8, 1⟩)
        (some ⟨2025, 8, 31⟩)).2.getD 0 0 =
      (([sampleTx].filter (fun t =>
          inClaimBucket (some ⟨2025, 8, 1⟩) (some ⟨2025, 8, 31⟩)
            (monthOfIndex (monthIndex sampleDate - (1 - 1 - 0 : Nat))).1
            (monthOfIndex (monthIndex sampleDate - (1 - 1 - 0 : Nat))).2
            t.date)).map (fun t => t.totalAmount)).sum :=
  getRevenueChartData_spec sampleDate [sampleTx] 1 (some ⟨2025, 8, 1⟩)
    (some ⟨2025, 8, 31⟩) 0 (by decide)

/-- C4 counterexample: only `startDate` is supplied and the transaction's
date (Aug 10) lies strictly before it (Aug 20) — outside the supplied
range — yet the code counts it: the bucket sums to 100, where the claim
(both filters applied whenever at least one bound is supplied) demands
0. -/
theorem getRevenueChartData_spec_cex :
    (getRevenueChartData sampleDate [sampleTx] 1 (some ⟨2025, 8, 20⟩)
        none).2 = [100] ∧
    dateLe ⟨2025, 8, 20⟩ sampleTx.date = false := by
  exact ⟨by decide, by decide⟩

/-! ### C5: top customer -/

/-- Combined invariant of the `pickTopStep` fold: the accumulator's
amount never decreases, bounds every scanned amount, is unchanged (as a
pair) when it never strictly increases, and — once it has strictly
increased — the final pair is the FIRST list entry attaining the final
amount (the strict `>` test keeps earlier entries on ties). -/
theorem pickTop_go (l : List (String × Int)) (acc : String × Int) :
    acc.2 ≤ (l.foldl pickTopStep acc).2 ∧
    (∀ e ∈ l, e.2 ≤ (l.foldl pickTopStep acc).2) ∧
    ((l.foldl pickTopStep acc).2 = acc.2 → l.foldl pickTopStep acc = acc) ∧
    (acc.2 < (l.foldl pickTopStep acc).2 →
      l.find? (fun e => e.2 == (l.foldl pickTopStep acc).2) =
        some (l.foldl pickTopStep acc)) := by
  induction l generalizing acc with
  | nil =>
      exact ⟨le_refl _, by simp, fun _ => rfl, fun h => absurd h (lt_irrefl _)⟩
  | cons e l ih =>
      obtain ⟨ih1, ih2, ih3, ih4⟩ := ih (pickTopStep acc e)
      have hstep_acc : acc.2 ≤ (pickTopStep acc e).2 := by
        unfold pickTopStep; split <;> omega
      have hstep_e : e.2 ≤ (pickTopStep acc e).2 := by
        unfold pickTopStep; split <;> omega
      rw [List.foldl_cons]
      refine ⟨le_trans hstep_acc ih1, ?_, ?_, ?_⟩
      · intro x hx
        rcases List.mem_cons.mp hx with rfl | hx'
        · exact le_trans hstep_e ih1
        · exact ih2 x hx'
      · intro h
        have h1 : (pickTopStep acc e).2 = acc.2 := by omega
        have h2 : l.foldl pickTopStep (pickTopStep acc e) = pickTopStep acc e :=
          ih3 (by omega)
        have h3 : pickTopStep acc e = acc := by
          by_cases hae : acc.2 < e.2
          · have he2 : (pickTopStep acc e).2 = e.2 := by simp [pickTopStep, hae]
            exact absurd h1 (by omega)
          · simp [pickTopStep, hae]
        rw [h2, h3]
      · intro h
        by_cases hae : acc.2 < e.2
        · have hs : pickTopStep acc e = e := by simp [pickTopStep, hae]
          rw [hs] at ih1 ih3 ih4 ⊢
          by_cases he : (l.foldl pickTopStep e).2 = e.2
          · rw [ih3 he]
            exact List.find?_cons_of_pos _ (by simp [he])
          · have hlt : e.2 < (l.foldl pickTopStep e).2 := by omega
            rw [List.find?_cons_of_neg _ (by simp; omega)]
            exact ih4 hlt
        · have hs : pickTopStep acc e = acc := by simp [pickTopStep, hae]
          rw [hs] at ih4 h ⊢
          rw [List.find?_cons_of_neg _ (by simp; omega)]
          exact ih4 h

/-- On a non-empty list of positive amounts `pickTop` returns a positive
maximum, and the scanned pair is the first entry attaining it. -/
theorem pickTop_spec (m : List (String × Int)) (hm : m ≠ [])
    (hpos : ∀ e ∈ m, 0 < e.2) :
    0 < (pickTop m).2 ∧
    (∀ e ∈ m, e.2 ≤ (pickTop m).2) ∧
    m.find? (fun e => e.2 == (pickTop m).2) = some (pickTop m) := by
  obtain ⟨hge0, hbound, heq, hfind⟩ := pickTop_go m ("", 0)
  obtain ⟨e0, he0⟩ := List.exists_mem_of_ne_nil m hm
  have htop : 0 < (pickTop m).2 := lt_of_lt_of_le (hpos e0 he0) (hbound e0 he0)
  exact ⟨htop, hbound, hfind htop⟩

theorem bump_ne_nil (acc : List (String × Int)) (cid : String) (amt : Int) :
    bump acc cid amt ≠ [] := by
  cases acc with
  | nil => simp [bump]
  | cons a rest =>
      obtain ⟨c, v⟩ := a
      by_cases hc : c = cid <;> simp [bump, hc]

theorem foldl_bump_ne_nil (txs : List Transaction)
    (acc : List (String × Int)) (h : acc ≠ []) :
    txs.foldl (fun acc t => bump acc t.customerId t.totalAmount) acc ≠ [] := by
  induction txs generalizing acc with
  | nil => simpa using h
  | cons t ts ih =>
      rw [List.foldl_cons]
      exact ih _ (bump_ne_nil acc t.customerId t.totalAmount)

theorem accumTotals_ne_nil (txs : List Transaction) (h : txs ≠ []) :
    accumTotals txs ≠ [] := by
  cases txs with
  | nil => exact absurd rfl h
  | cons t ts =>
      unfold accumTotals
      rw [List.foldl_cons]
      exact foldl_bump_ne_nil ts _ (bump_ne_nil [] _ _)

/-- Where an entry of `bump acc cid amt` comes from: untouched from
`acc`, freshly appended `(cid, amt)`, or the updated entry at key
`cid`. -/
theorem mem_bump (acc : List (String × Int)) (cid : String) (amt : Int) :
    ∀ e ∈ bump acc cid amt,
      e ∈ acc ∨ (e.1 = cid ∧ (e.2 = amt ∨ ∃ v, (cid, v) ∈ acc ∧ e.2 = v + amt)) := by
  induction acc with
  | nil =>
      intro e he
      simp only [bump, List.mem_singleton] at he
      subst he
      exact Or.inr ⟨rfl, Or.inl rfl⟩
  | cons a rest ih =>
      obtain ⟨c, v⟩ := a
      intro e he
      by_cases hc : c = cid
      · subst hc
        simp only [bump, if_pos rfl] at he
        rcases List.mem_cons.mp he with rfl | he'
        · exact Or.inr ⟨rfl, Or.inr ⟨v, List.mem_cons_self _ _, rfl⟩⟩
        · exact Or.inl (List.mem_cons_of_mem _ he')
      · simp only [bump, if_neg hc] at he
        rcases List.mem_cons.mp he with rfl | he'
        · exact Or.inl (List.mem_cons_self _ _)
        · rcases ih e he' with h | ⟨h1, h2⟩
          · exact Or.inl (List.mem_cons_of_mem _ h)
          · refine Or.inr ⟨h1, ?_⟩
            rcases h2 with h2 | ⟨w, hw, hw2⟩
            · exact Or.inl h2
            · exact Or.inr ⟨w, List.mem_cons_of_mem _ hw, hw2⟩

theorem bump_pos (acc : List (String × Int)) (cid : String) (amt : Int)
    (hacc : ∀ e ∈ acc, 0 < e.2) (hamt : 0 < amt) :
    ∀ e ∈ bump acc cid amt, 0 < e.2 := by
  intro e he
  rcases mem_bump acc cid amt e he with h | ⟨-, h2 | ⟨v, hv, h2⟩⟩
  · exact hacc e h
  · omega
  · have := hacc (cid, v) hv
    simp only at this
    omega

theorem foldl_bump_pos (txs : List Transaction) :
    ∀ acc : List (String × Int), (∀ e ∈ acc, 0 < e.2) →
      (∀ t ∈ txs, 0 < t.totalAmount) →
      ∀ e ∈ txs.foldl (fun acc t => bump acc t.customerId t.totalAmount) acc,
        0 < e.2 := by
  induction txs with
  | nil =>
      intro acc hacc _ e he
      exact hacc e (by simpa using he)
  | cons t ts ih =>
      intro acc hacc htx e he
      rw [List.foldl_cons] at he
      exact ih _ (bump_pos acc t.customerId t.totalAmount hacc
          (htx t (List.mem_cons_self _ _)))
        (fun x hx => htx x (List.mem_cons_of_mem _ hx)) e he

theorem accumTotals_pos (txs : List Transaction)
    (htx : ∀ t ∈ txs, 0 < t.totalAmount) :
    ∀ e ∈ accumTotals txs, 0 < e.2 :=
  foldl_bump_pos txs [] (by simp) htx

theorem foldl_bump_keys (txs : List Transaction) :
    ∀ acc : List (String × Int),
      ∀ e ∈ txs.foldl (fun acc t => bump acc t.customerId t.totalAmount) acc,
        (∃ a ∈ acc, e.1 = a.1) ∨ ∃ t ∈ txs, e.1 = t.customerId := by
  induction txs with
  | nil =>
      intro acc e he
      exact Or.inl ⟨e, by simpa using he, rfl⟩
  | cons t ts ih =>
      intro acc e he
      rw [List.foldl_cons] at he
      rcases ih _ e he with ⟨a, ha, he1⟩ | ⟨t', ht', he1⟩
      · rcases mem_bump acc t.customerId t.totalAmount a ha with h | ⟨h1, -⟩
        · exact Or.inl ⟨a, h, he1⟩
        · exact Or.inr ⟨t, List.mem_cons_self _ _, he1.trans h1⟩
      · exact Or.inr ⟨t', List.mem_cons_of_mem _ ht', he1⟩

theorem accumTotals_keys (txs : List Transaction) :
    ∀ e ∈ accumTotals txs, ∃ t ∈ txs, e.1 = t.customerId := by
  intro e he
  rcases foldl_bump_keys txs [] e he with ⟨a, ha, -⟩ | h
  · simp at ha
  · exact h

/-- C5 (amended): assume every transaction has positive `totalAmount`, no
customer has an empty id, and every current-month transaction's
`customerId` belongs to some customer. Then `topCustomer = (null, 0)`
when there are no current-month transactions; otherwise its amount is
positive, bounds every per-customer monthly total, the scan result is
the FIRST accumulated entry attaining that amount (first-encountered
tie-break), and the customer object is one from the list carrying that
entry's id. (Without positivity a current-month transaction of total `0`
already yields `(null, 0)`.) -/
theorem getDashboardStats_topCustomer (now : Date) (customers : List Customer)
    (transactions : List Transaction)
    (hpos : ∀ t ∈ transactions, 0 < t.totalAmount)
    (hid : ∀ c ∈ customers, c.id ≠ "")
    (href : ∀ t ∈ transactions, sameMonth now.month now.year t.date = true →
      ∃ c ∈ customers, c.id = t.customerId) :
    (transactions.filter (fun t => sameMonth now.month now.year t.date) = [] →
      (getDashboardStats now customers transactions).topCustomer = (none, 0)) ∧
    (transactions.filter (fun t => sameMonth now.month now.year t.date) ≠ [] →
      0 < (getDashboardStats now customers transactions).topCustomer.2 ∧
      (∀ e ∈ accumTotals
          (transactions.filter (fun t => sameMonth now.month now.year t.date)),
        e.2 ≤ (getDashboardStats now customers transactions).topCustomer.2) ∧
      (accumTotals
          (transactions.filter (fun t => sameMonth now.month now.year t.date))).find?
          (fun e =>
            e.2 == (getDashboardStats now customers transactions).topCustomer.2) =
        some (pickTop (accumTotals
          (transactions.filter (fun t => sameMonth now.month now.year t.date)))) ∧
      (∃ c, (getDashboardStats now customers transactions).topCustomer.1 = some c ∧
        c ∈ customers ∧
        c.id = (pickTop (accumTotals
          (transactions.filter
            (fun t => sameMonth now.month now.year t.date)))).1)) := by
  have h1eq : (getDashboardStats now customers transactions).topCustomer.1 =
      customers.find? (fun c =>
        c.id == (pickTop (accumTotals
          (transactions.filter (fun t => sameMonth now.month now.year t.date)))).1) :=
    rfl
  have h2eq : (getDashboardStats now customers transactions).topCustomer.2 =
      (pickTop (accumTotals
        (transactions.filter (fun t => sameMonth now.month now.year t.date)))).2 :=
    rfl
  constructor
  · intro hempty
    have hf : customers.find? (fun c => c.id == "") = none :=
      List.find?_eq_none.mpr (fun c hc => by simpa using hid c hc)
    have hmk : (getDashboardStats now customers transactions).topCustomer =
        (customers.find? (fun c =>
          c.id == (pickTop (accumTotals
            (transactions.filter (fun t => sameMonth now.month now.year t.date)))).1),
         (pickTop (accumTotals
           (transactions.filter (fun t => sameMonth now.month now.year t.date)))).2) :=
      rfl
    rw [hmk, hempty]
    show (customers.find? (fun c => c.id == ""), (0 : Int)) = (none, 0)
    rw [hf]
  · intro hne
    have hpos_tm : ∀ t ∈ transactions.filter
        (fun t => sameMonth now.month now.year t.date), 0 < t.totalAmount :=
      fun t ht => hpos t (List.mem_filter.mp ht).1
    obtain ⟨htop, hbound, hfind⟩ :=
      pickTop_spec
        (accumTotals (transactions.filter (fun t => sameMonth now.month now.year t.date)))
        (accumTotals_ne_nil _ hne)
        (accumTotals_pos _ hpos_tm)
    refine ⟨by rw [h2eq]; exact htop, ?_, ?_, ?_⟩
    · intro e he
      rw [h2eq]
      exact hbound e he
    · rw [h2eq]
      exact hfind
    · have htopmem := List.mem_of_find?_eq_some hfind
      obtain ⟨t, ht, hkey⟩ := accumTotals_keys _ _ htopmem
      have ht' := List.mem_filter.mp ht
      obtain ⟨c, hc, hcid⟩ := href t ht'.1 ht'.2
      have hsome : (customers.find? (fun x =>
          x.id == (pickTop (accumTotals
            (transactions.filter
              (fun t => sameMonth now.month now.year t.date)))).1)).isSome := by
        rw [List.find?_isSome]
        exact ⟨c, hc, by simp [hcid, hkey]⟩
      obtain ⟨c', hc'⟩ := Option.isSome_iff_exists.mp hsome
      refine ⟨c', by rw [h1eq]; exact hc', List.mem_of_find?_eq_some hc', ?_⟩
      have := List.find?_some hc'
      simpa using this

theorem getDashboardStats_topCustomer_witness :
    0 < (getDashboardStats sampleDate [sampleCustomer] [sampleTx]).topCustomer.2 ∧
    (∀ e ∈ accumTotals
        ([sampleTx].filter (fun t => sameMonth sampleDate.month sampleDate.year t.date)),
      e.2 ≤ (getDashboardStats sampleDate [sampleCustomer] [sampleTx]).topCustomer.2) ∧
    (accumTotals
        ([sampleTx].filter (fun t => sameMonth sampleDate.month sampleDate.year t.date))).find?
        (fun e =>
          e.2 == (getDashboardStats sampleDate [sampleCustomer] [sampleTx]).topCustomer.2) =
      some (pickTop (accumTotals
        ([sampleTx].filter (fun t => sameMonth sampleDate.month sampleDate.year t.date)))) ∧
    (∃ c, (getDashboardStats sampleDate [sampleCustomer] [sampleTx]).topCustomer.1 =
        some c ∧
      c ∈ [sampleCustomer] ∧
      c.id = (pickTop (accumTotals
        ([sampleTx].filter
          (fun t => sameMonth sampleDate.month sampleDate.year t.date)))).1) := by
  obtain ⟨-, h2⟩ := getDashboardStats_topCustomer sampleDate [sampleCustomer]
    [sampleTx] (by decide) (by decide) (by decide)
  exact h2 (by decide)

/-- C5 counterexample: a single current-month transaction with
`totalAmount = 0`. The strict `>` scan never leaves its `("", 0)` start,
so `topCustomer = (null, 0)` although a current-month transaction
exists — refuting "equals (null, 0) exactly when there are no
current-month transactions". -/
theorem getDashboardStats_topCustomer_cex :
    (getDashboardStats sampleDate [sampleCustomer]
        [⟨"t9", "c1", sampleDate, [], 0, 0, Status.pending, none,
          sampleDate⟩]).topCustomer = (none, 0) ∧
    [(⟨"t9", "c1", sampleDate, [], 0, 0, Status.pending, none,
        sampleDate⟩ : Transaction)].filter
        (fun t => sameMonth sampleDate.month sampleDate.year t.date) ≠ [] := by
  exact ⟨by decide, by decide⟩
